import Mathlib

/-!
Verification of the concurrent scraping / text-extraction layer of the
predicting-global-conflict repository.  The Python sources under
`src/scraping` are shallowly embedded below: pure string processing becomes
functions on `String` / `List Char`, browser and network effects become
explicit environment records, exceptions become `Except`, and the external
collaborators (the JSON/literal parser, the rapidfuzz scorer) become function
parameters.  Machine-relevant pieces of CPython semantics (whitespace sets,
`str.strip`, `str.split`, the concrete regexes appearing in the code) are
modelled explicitly; non-ASCII case folding and non-ASCII `\d` digits are
modelled by their ASCII fragments.
-/
/-- Python whitespace predicate (CPython's unicode whitespace table): the
character set recognised by `str.isspace`, `str.strip`, `str.split` and the
regex class `\s`. -/
def pySpaceCodes : List Nat :=
  [0x09, 0x0A, 0x0B, 0x0C, 0x0D, 0x1C, 0x1D, 0x1E, 0x1F, 0x20, 0x85, 0xA0,
   0x1680, 0x2000, 0x2001, 0x2002, 0x2003, 0x2004, 0x2005, 0x2006, 0x2007,
   0x2008, 0x2009, 0x200A, 0x2028, 0x2029, 0x202F, 0x205F, 0x3000]

/-- Whether a character is Python whitespace. -/
def pyIsSpace (c : Char) : Bool := pySpaceCodes.contains c.toNat

/-- Python `str.strip()` on a character list: drop whitespace at both ends. -/
def stripChars (l : List Char) : List Char :=
  ((l.dropWhile pyIsSpace).reverse.dropWhile pyIsSpace).reverse

/-- Python `str.strip()`. -/
def pyStrip (s : String) : String := String.mk (stripChars s.data)

/-- Python `str.lower()` restricted to its ASCII action (non-ASCII case
mappings do not occur in the configured inputs and are not modelled). -/
def pyLower (s : String) : String := String.mk (s.data.map Char.toLower)

/-- Python substring containment `needle in hay` on character lists. -/
def containsSub (needle : List Char) : List Char → Bool
  | [] => needle.isEmpty
  | c :: t => needle.isPrefixOf (c :: t) || containsSub needle t

/-- Python substring containment `needle in hay` on strings. -/
def strContains (hay needle : String) : Bool := containsSub needle.data hay.data

/-- Python `str.split()` (split on whitespace runs, dropping empty pieces),
as a structurally recursive right fold on the character list. -/
def splitWsChars : List Char → List (List Char)
  | [] => []
  | c :: t =>
    let rest := splitWsChars t
    if pyIsSpace c then rest
    else
      match t, rest with
      | [], _ => [[c]]
      | d :: _, r =>
        if pyIsSpace d then [c] :: r
        else
          match r with
          | [] => [[c]]
          | w :: ws => (c :: w) :: ws

/-- Python `str.split()` on strings. -/
def splitWs (s : String) : List String := (splitWsChars s.data).map String.mk

/-!
`AsyncKeywordFilter` (src/src/scraping/logic_parser.py).  The constructor
stores `metric_keywords` and `min_score`; `_preprocess_sync` scans every
metric's keyword list looking for an exact (substring) match and otherwise
fuzzy-matches every whitespace token of the lowered text.  The external
`rapidfuzz` scorer `fuzz.partial_ratio` is a parameter `fuzzScore`.
-/
/-- `AsyncKeywordFilter._preprocess_sync`: returns true as soon as some
metric's keyword matches the text exactly (lower-cased substring) or some
whitespace token of the text fuzzy-matches it with score at least
`min_score`. -/
def preprocess_sync (metricMapping : List (String × List String)) (minScore : ℚ)
    (fuzzScore : String → String → ℚ) (text : String) : Bool :=
  let textLower := pyLower text
  metricMapping.any fun mk =>
    mk.2.any fun kw =>
      strContains textLower (pyLower kw) ||
        (splitWs textLower).any fun word => decide (minScore ≤ fuzzScore (pyLower kw) word)

/-- Concrete metric name for the monotonicity witness. -/
def wMetric : String := "disaster"

/-- Concrete keyword list for the monotonicity witness. -/
def wKws : List String := [r"flood"]

/-- Concrete article text for the monotonicity witness. -/
def wText : String := "flood warning issued"

/-!
`AsyncTextParser` (src/src/scraping/logic_parser.py).  `format_response`
receives the model's raw textual response, applies the negative-result check,
strips a fenced code block, parses the remainder (json.loads with an
ast.literal_eval fallback, modelled by a `parse` parameter), and validates
each entry of the resulting list into a `Fact`.  Python values are embedded
as `PyVal`.
-/
/-- Python values that the external parsers can produce. -/
inductive PyVal where
  | pyNone : PyVal
  | pyBool : Bool → PyVal
  | pyInt : Int → PyVal
  | pyStr : String → PyVal
  | pyList : List PyVal → PyVal
  | pyTuple : List PyVal → PyVal
  | pyDict : List (String × PyVal) → PyVal

/-- Comma-space separator used by Python container reprs. -/
def commaSep : String := ", "

mutual

/-- CPython `repr` on the embedded value fragment (string escaping inside
quotes does not arise in the validated fields and is elided). -/
def pyRepr : PyVal → String
  | .pyNone => "None"
  | .pyBool b => if b then "True" else "False"
  | .pyInt n => toString n
  | .pyStr s => "'" ++ s ++ "'"
  | .pyList l => "[" ++ String.intercalate commaSep (pyReprItems l) ++ "]"
  | .pyTuple [v] => "(" ++ pyRepr v ++ ",)"
  | .pyTuple l => "(" ++ String.intercalate commaSep (pyReprItems l) ++ ")"
  | .pyDict d => "\x7b" ++ String.intercalate commaSep (pyReprPairs d) ++ "\x7d"

/-- Reprs of the items of a list value. -/
def pyReprItems : List PyVal → List String
  | [] => []
  | v :: vs => pyRepr v :: pyReprItems vs

/-- Reprs of the key/value pairs of a dict value. -/
def pyReprPairs : List (String × PyVal) → List String
  | [] => []
  | (k, v) :: ps => ("'" ++ k ++ "': " ++ pyRepr v) :: pyReprPairs ps

end

/-- CPython `str()` on the embedded value fragment. -/
def pyStrOf : PyVal → String
  | .pyStr s => s
  | v => pyRepr v

/-- Python `dict.get(k, dflt)`. -/
def dictGet (d : List (String × PyVal)) (k : String) (dflt : PyVal) : PyVal :=
  match d.find? (fun p => p.1 == k) with
  | some p => p.2
  | none => dflt

/-- Python iteration over a value: lists and tuples yield their elements,
strings their characters, dicts their keys; other values raise TypeError
(`none`). -/
def pyIterate : PyVal → Option (List PyVal)
  | .pyList l => some l
  | .pyTuple l => some l
  | .pyStr s => some (s.data.map fun c => .pyStr (String.mk [c]))
  | .pyDict d => some (d.map fun p => .pyStr p.1)
  | _ => none

/-- The date test `re.match(r"^\d{2}-\d{4}$", d)` of format_response: two
ASCII digits, a dash and four digits, with Python's `$` also accepting one
trailing newline. -/
def matchesDateRe (s : String) : Bool :=
  match s.data with
  | [a, b, dash, c, d, e, f] =>
    a.isDigit && b.isDigit && (dash == '-') && c.isDigit && d.isDigit && e.isDigit && f.isDigit
  | [a, b, dash, c, d, e, f, nl] =>
    a.isDigit && b.isDigit && (dash == '-') && c.isDigit && d.isDigit && e.isDigit &&
      f.isDigit && (nl == '\n')
  | _ => false

/-- ASCII letter test (the regex class `[a-zA-Z]`). -/
def isAsciiLetter (c : Char) : Bool :=
  (('a' ≤ c) && (c ≤ 'z')) || (('A' ≤ c) && (c ≤ 'Z'))

/-- The substitution `re.sub(r"^`+``[a-zA-Z]*\n?", "", response)` (opening
code-fence removal; the pattern is three backticks, a language tag, an
optional newline, anchored at the start). -/
def stripFenceOpen (s : String) : String :=
  match s.data with
  | '`' :: '`' :: '`' :: rest =>
    match rest.dropWhile isAsciiLetter with
    | '\n' :: r2 => String.mk r2
    | r1 => String.mk r1
  | _ => s

/-- The substitution removing a closing code fence: an optional newline and
three backticks at the end of the string (where Python's `$` also matches
just before one final newline). -/
def stripFenceClose (s : String) : String :=
  let l := s.data
  if (['`', '`', '`']).isSuffixOf l then
    let r := l.dropLast.dropLast.dropLast
    match r.getLast? with
    | some '\n' => String.mk r.dropLast
    | _ => String.mk r
  else if (['`', '`', '`', '\n']).isSuffixOf l then
    let r := l.dropLast.dropLast.dropLast.dropLast
    match r.getLast? with
    | some '\n' => String.mk r
    | _ => String.mk (r ++ ['\n'])
  else s

/-- A validated extracted record (country, metric, valid dates). -/
structure ExtractedFact where
  country : String
  metric : String
  dates : List String
  deriving DecidableEq

/-- `AsyncTextParser.configure_parsing`: the allow-list is stored
lower-cased. -/
def configure_allowed (allowedMetrics : List String) : List String :=
  allowedMetrics.map pyLower

/-- The negative-result check of format_response: lower-case and strip the
response and test whether the substring "no" occurs within its first
`min(10, len)` characters. -/
def no_check (response : String) : Bool :=
  let cleaned := pyStrip (pyLower response)
  strContains (String.mk (cleaned.data.take 10)) (String.mk ['n', 'o'])

/-- Validation of one parsed entry inside format_response: non-dict entries
are skipped, the metric must be in the allow-list, dates are filtered by the
date regex, and the entry is kept only when country, metric and the filtered
dates are all non-empty.  `.error` models the TypeError raised when `dates`
is not iterable. -/
def format_entry (allowedMetrics : List String) (e : PyVal) : Except Unit (Option ExtractedFact) :=
  match e with
  | .pyDict d =>
    let country := pyStrip (pyStrOf (dictGet d (r"country") (.pyStr "")))
    let metric := pyLower (pyStrip (pyStrOf (dictGet d (r"metric") (.pyStr ""))))
    let dates := dictGet d (r"dates") (.pyList [])
    if metric ∈ allowedMetrics then
      match pyIterate dates with
      | none => .error ()
      | some ds =>
        let validDates := ds.filterMap fun v =>
          match v with
          | .pyStr s => if matchesDateRe s then some s else none
          | _ => none
        if country ≠ "" ∧ metric ≠ "" ∧ validDates ≠ [] then
          .ok (some ⟨country, metric, validDates⟩)
        else .ok none
    else .ok none
  | _ => .ok none

/-- The validation loop of format_response over the parsed list. -/
def format_entries (allowedMetrics : List String) : List PyVal → Except Unit (List ExtractedFact)
  | [] => .ok []
  | e :: rest =>
    match format_entry allowedMetrics e with
    | .error u => .error u
    | .ok none => format_entries allowedMetrics rest
    | .ok (some f) =>
      match format_entries allowedMetrics rest with
      | .error u => .error u
      | .ok fs => .ok (f :: fs)

/-- `AsyncTextParser.format_response`.  `parse` models `json.loads` with the
`ast.literal_eval` fallback (`none` when both parses fail); `allowedMetrics`
is the stored allow-list (`configure_allowed` of the configured metrics).
The result is `none` for every rejection path, a non-empty fact list
otherwise, and `.error` models the TypeError escaping when an entry's
`dates` value is not iterable. -/
def format_response (parse : String → Option PyVal) (allowedMetrics : List String)
    (response : String) : Except Unit (Option (List ExtractedFact)) :=
  if response = "" then .ok none
  else if no_check response then .ok none
  else
    match parse (pyStrip (stripFenceClose (stripFenceOpen response))) with
    | none => .ok none
    | some (.pyList entries) =>
      match format_entries allowedMetrics entries with
      | .error u => .error u
      | .ok [] => .ok none
      | .ok fs => .ok (some fs)
    | some _ => .ok none

/-- A parse stub returning one well-formed entry with a capitalised metric
field, used by the concrete instantiations below. -/
def goodParse : String → Option PyVal := fun _ =>
  some (.pyList [.pyDict
    [((r"country"), .pyStr (r"Kenya")),
     ((r"metric"), .pyStr (r"Disaster")),
     ((r"dates"), .pyList [.pyStr (r"03-2021"), .pyStr (r"2021-03")])]])

/-- Concrete model response for the instantiations (free of the substring
"no" in its first ten characters). -/
def wResp : String := "result"

/-- Concrete configured allow-list for the instantiations. -/
def wAllowed : List String := [r"Disaster"]

/-- The fact goodParse's entry validates to. -/
def wFact : ExtractedFact := ⟨(r"Kenya"), (r"disaster"), [(r"03-2021")]⟩

/-- A parse stub whose entry contains the date string 13-2021. -/
def thirteenParse : String → Option PyVal := fun _ =>
  some (.pyList [.pyDict
    [((r"country"), .pyStr (r"Kenya")),
     ((r"metric"), .pyStr (r"disaster")),
     ((r"dates"), .pyList [.pyStr (r"13-2021")])]])

/-!
`AsyncPlaywrightBrowser.resolve_final_url` (src/src/scraping/news_boy.py).
Each awaited navigation call either succeeds, raises asyncio.TimeoutError
(from asyncio.wait_for), raises Playwright's TimeoutError, or raises some
other exception; all of these are subclasses of Exception except the asyncio
timeout, which has its own handler.  The page handle is an environment
recording each call's outcome and the value of `page.url` at each read site
(the URL can change between reads while redirects settle).  Task
cancellation (CancelledError) is outside the modelled alphabet.
-/
/-- Outcome of one awaited navigation operation. -/
inductive NavOutcome where
  | ok : NavOutcome
  | asyncioTimeout : NavOutcome
  | playwrightTimeout : NavOutcome
  | otherError : NavOutcome
  deriving DecidableEq

/-- Exceptions that can escape the try body of resolve_final_url. -/
inductive NavErr where
  | asyncioTimeout : NavErr
  | playwrightTimeout : NavErr
  | otherError : NavErr
  deriving DecidableEq

/-- The page handle as seen by resolve_final_url. -/
structure RedirectPage where
  gotoOutcome : NavOutcome
  loadStateOutcome : NavOutcome
  urlAtCheck : String
  rssWaitOutcome : NavOutcome
  urlAtReturn : String
  urlAtTimeout : String
  deriving DecidableEq

/-- The try body of resolve_final_url: navigate with goto, wait for the
networkidle load state, and if the landing URL matches the Google RSS
indirection pattern wait further for a client-side redirect; this inner wait
has its own handler for Playwright's TimeoutError, after which the current
URL is returned. -/
def resolve_body (page : RedirectPage) : Except NavErr String :=
  match page.gotoOutcome with
  | .asyncioTimeout => .error .asyncioTimeout
  | .playwrightTimeout => .error .playwrightTimeout
  | .otherError => .error .otherError
  | .ok =>
    match page.loadStateOutcome with
    | .asyncioTimeout => .error .asyncioTimeout
    | .playwrightTimeout => .error .playwrightTimeout
    | .otherError => .error .otherError
    | .ok =>
      if strContains page.urlAtCheck (r"news.google.com/rss/articles") then
        match page.rssWaitOutcome with
        | .ok => .ok page.urlAtReturn
        | .playwrightTimeout => .ok page.urlAtReturn
        | .asyncioTimeout => .error .asyncioTimeout
        | .otherError => .error .otherError
      else .ok page.urlAtReturn

/-- `AsyncPlaywrightBrowser.resolve_final_url`: an empty URL or one not
containing "google" is returned unchanged; otherwise the body runs under two
handlers: asyncio.TimeoutError returns the page's current URL, and any other
Exception returns the original input URL. -/
def resolve_final_url (page : RedirectPage) (url : String) : Except NavErr String :=
  if url = "" || !(strContains url (r"google")) then .ok url
  else
    match resolve_body page with
    | .ok u => .ok u
    | .error .asyncioTimeout => .ok page.urlAtTimeout
    | .error .playwrightTimeout => .ok url
    | .error .otherError => .ok url

/-- A page whose goto call times out while the page still shows about:blank. -/
def cexPage : RedirectPage :=
  ⟨.asyncioTimeout, .ok, "", .ok, "", (r"about:blank")⟩

/-- A Google-hosted indirection URL for the counterexample. -/
def cexUrl : String := "https://news.google.com/rss/articles/x"

/-!
`AsyncPlaywrightBrowser.get_page_text` (src/src/scraping/news_boy.py).  The
semaphore scope and page lifecycle have no effect on the returned value; the
navigation/wait phase either completes or raises (asyncio timeout or any
other exception, both mapped to a None result by the outer handlers).  The
element handles and the raw-markup fallback candidates the page yields are
environment inputs; the filters applied to them are embedded verbatim.
-/
/-- One element handle examined by the extraction loop: whether an awaited
call on it raised (skipped by the per-element handler), whether bounding_box
returned a truthy box, and the inner_text result (None coerced to ""). -/
structure ElemHandle where
  errored : Bool
  visible : Bool
  innerText : String
  deriving DecidableEq

/-- The configuration fields of AsyncPlaywrightBrowser read by
get_page_text. -/
structure BrowserCfg where
  min_text_length : Nat
  skip_words : List String
  n_contexts : Nat
  deriving DecidableEq

/-- The per-call environment of get_page_text. -/
structure PageEnv where
  navFailed : Bool
  elements : List ElemHandle
  candidates : List String
  deriving DecidableEq

/-- The visible-element filter: skip errored or invisible elements, strip
the text, require it non-empty and at least 50 characters, require the
whitespace-token count to be at least a quarter of the character count, and
reject texts containing a configured skip word (case-insensitively). -/
def element_blocks (skipWords : List String) (els : List ElemHandle) : List String :=
  els.filterMap fun el =>
    if el.errored then none
    else if !el.visible then none
    else
      let t := pyStrip el.innerText
      if t = "" then none
      else if t.length < 50 then none
      else if 4 * (splitWs t).length < t.length then none
      else if skipWords.any fun w => strContains (pyLower t) w then none
      else some t

/-- Python regex word-character class `\w` restricted to ASCII. -/
def pyWordChar (c : Char) : Bool := c.isAlphanum || c = '_'

/-- Whether `needle` occurs in the remaining text delimited by word
boundaries, `prev` being the character just before the current position (the
regex `\b...\b` search, scanning left to right). -/
def searchBounded (needle : List Char) : Option Char → List Char → Bool
  | _, [] => false
  | prev, c :: t =>
    (needle.isPrefixOf (c :: t) &&
      (match prev with
       | none => true
       | some p => !pyWordChar p) &&
      (match (c :: t).drop needle.length with
       | [] => true
       | d :: _ => !pyWordChar d)) ||
      searchBounded needle (some c) t

/-- The boilerplate test of the raw-markup fallback:
re.search of subscribe, cookie, sign in or follow us between word
boundaries in the lowered candidate text. -/
def boilerplate_hit (t : String) : Bool :=
  [(r"subscribe"), (r"cookie"), (r"sign in"), (r"follow us")].any fun w =>
    searchBounded w.data none (pyLower t).data

/-- The raw-markup fallback filter: keep candidate texts longer than 100
characters that do not hit the boilerplate pattern. -/
def fallback_blocks (candidates : List String) : List String :=
  candidates.filter fun t => decide (100 < t.length) && !boilerplate_hit t

/-- Newline separator. -/
def nlStr : String := "\n"

/-- Space separator. -/
def spaceStr : String := " "

/-- The final combine-and-clean step: join the blocks with newlines, then
re-join all whitespace-separated tokens with single spaces. -/
def normalize_page_text (blocks : List String) : String :=
  String.intercalate spaceStr (splitWs (String.intercalate nlStr blocks))

/-- The page_text value computed by get_page_text before the length check
(visible-element blocks, or the raw-markup fallback when none survive). -/
def page_text_of (cfg : BrowserCfg) (env : PageEnv) : String :=
  normalize_page_text
    (if element_blocks cfg.skip_words env.elements = []
     then fallback_blocks env.candidates
     else element_blocks cfg.skip_words env.elements)

/-- `AsyncPlaywrightBrowser.get_page_text`: an out-of-range context id raises
ValueError (`.error`); a navigation failure yields None; otherwise the
combined text is returned only when it reaches min_text_length, else None. -/
def get_page_text (cfg : BrowserCfg) (contextId : Int) (env : PageEnv) :
    Except Unit (Option String) :=
  if contextId < 0 ∨ (cfg.n_contexts : Int) ≤ contextId then .error ()
  else if env.navFailed then .ok none
  else if (page_text_of cfg env).length < cfg.min_text_length then .ok none
  else .ok (some (page_text_of cfg env))

/-- A 50-character element text of 17 two-letter words. -/
def wBlock : String := "aa aa aa aa aa aa aa aa aa aa aa aa aa aa aa aa aa"

/-- Concrete browser configuration for the C6 witness (minimum length 10,
default skip words, five contexts). -/
def wCfg : BrowserCfg := ⟨10, [(r"blocked"), (r"captcha"), (r"consent")], 5⟩

/-- Concrete page environment for the C6 witness: one visible element whose
text passes every filter. -/
def wEnv : PageEnv := ⟨false, [⟨false, true, wBlock⟩], []⟩

/-!
`GNewsFetcher._fetch_single` / `get_bundle_search_parallel`
(src/src/scraping/gnews_fetcher.py).  All gathered tasks share one visited
set.  The acceptance loop of each task (membership test, metadata, append,
insertion) contains no await, so under asyncio's cooperative scheduling it
executes without interleaving; every concurrent execution is therefore some
sequential order of the per-task loops, and quantifying over all task lists
covers all interleavings and all assignments of the racing URL to tasks.
-/
/-- A raw search hit as returned by the external gnews client; only the
fields read by _fetch_single appear. -/
structure SearchHit where
  link : Option String
  urlField : Option String
  deriving DecidableEq

/-- The url extraction of _fetch_single: Python's
article.get("link") or article.get("url") (first truthy operand). -/
def raw_url (a : SearchHit) : Option String :=
  match a.link with
  | some s => if s ≠ "" then some s else a.urlField
  | none => a.urlField

/-- One search-country query (the fields used by add_metadata). -/
structure QueryIn where
  country : String
  searchText : String
  deriving DecidableEq

/-- An accepted article with the metadata added by add_metadata. -/
structure ArticleOut where
  url : Option String
  country : String
  searchText : String
  deriving DecidableEq

/-- The acceptance loop of _fetch_single over one search result list: a hit
whose url is not yet visited is emitted (with metadata) and its url is
inserted into the shared visited set; a visited url is skipped. -/
def fetch_single_loop (q : QueryIn) :
    List SearchHit → List (Option String) → List ArticleOut × List (Option String)
  | [], visited => ([], visited)
  | a :: rest, visited =>
    if raw_url a ∈ visited then fetch_single_loop q rest visited
    else
      let r := fetch_single_loop q rest (raw_url a :: visited)
      (⟨raw_url a, q.country, q.searchText⟩ :: r.1, r.2)

/-- get_bundle_search_parallel over the shared visited set: the gathered
tasks' atomic loops run in some sequential order and the emitted article
lists are flattened. -/
def run_fetch_tasks :
    List (QueryIn × List SearchHit) → List (Option String) →
      List ArticleOut × List (Option String)
  | [], visited => ([], visited)
  | (q, hits) :: rest, visited =>
    let r1 := fetch_single_loop q hits visited
    let r2 := run_fetch_tasks rest r1.2
    (r1.1 ++ r2.1, r2.2)

/-- The racing url of the C7 witness. -/
def wUrl : Option String := some (r"https://example.com/a")

/-- Two concurrent tasks both offered the url of the C7 witness. -/
def wTasks : List (QueryIn × List SearchHit) :=
  [(⟨(r"Kenya"), (r"floods in Kenya")⟩, [⟨wUrl, none⟩]),
   (⟨(r"Kenya"), (r"drought in Kenya")⟩, [⟨wUrl, none⟩])]

/-!
`clean_text` (src/src/scraping/utils.py): whitespace/punctuation
normalisation.  The pipeline applies, in order: newline/tab/non-breaking
space normalisation, the substitution of `\n\s*\n+` by two newlines, the
substitution of two-or-more spaces by the `<<WSEP>>` placeholder, the
spaced-single-alphanumeric merge, the restoration of placeholders to single
spaces, the removal of whitespace before punctuation, and per-line plus
global stripping.  Each regex substitution is embedded as a left-to-right
scanner with the engine's leftmost/greedy semantics; scanners that consume a
computed number of characters per step carry a fuel argument (one unit per
input character, which always suffices as every step consumes at least one
character) so that all definitions stay structurally recursive and
computable by the kernel.
-/
/-- Fuelled scanner for Python str.replace of \r\n by \n (leftmost,
non-overlapping). -/
def replaceCrlfF : Nat → List Char → List Char
  | 0, l => l
  | _ + 1, [] => []
  | fuel + 1, a :: t =>
    if a = '\r' then
      match t with
      | '\n' :: t2 => '\n' :: replaceCrlfF fuel t2
      | _ => a :: replaceCrlfF fuel t
    else a :: replaceCrlfF fuel t

/-- Python str.replace of \r\n by \n with adequate fuel. -/
def replace_crlf (l : List Char) : List Char := replaceCrlfF l.length l

/-- Python str.replace of one character by another. -/
def replace_char (x y : Char) (l : List Char) : List Char :=
  l.map fun a => if a = x then y else a

/-- Step 1 of clean_text: replace \r\n by \n, then \r by \n, then tab by a
space, then the non-breaking space by a space. -/
def clean_basic_ws (l : List Char) : List Char :=
  replace_char ' ' ' ' (replace_char '\t' ' ' (replace_char '\r' '\n' (replace_crlf l)))

/-- Index of the last newline of a character list, if any. -/
def lastNewlineIdx : List Char → Option Nat
  | [] => none
  | c :: t =>
    match lastNewlineIdx t with
    | some i => some (i + 1)
    | none => if c = '\n' then some 0 else none

/-- Fuelled scanner of step 2: the substitution of `\n\s*\n+` by two
newlines.  A match starts at a newline whose following whitespace run
contains another newline and extends to the last newline of that run (greedy
backtracking); the replacement is exactly two newlines and scanning resumes
after the match. -/
def collapseNlF : Nat → List Char → List Char
  | 0, l => l
  | _ + 1, [] => []
  | fuel + 1, a :: t =>
    if a = '\n' then
      match lastNewlineIdx (t.takeWhile pyIsSpace) with
      | some i => '\n' :: '\n' :: collapseNlF fuel (t.drop (i + 1))
      | none => a :: collapseNlF fuel t
    else a :: collapseNlF fuel t

/-- Step 2 with adequate fuel. -/
def collapse_newlines (l : List Char) : List Char := collapseNlF l.length l

/-- The `<<WSEP>>` placeholder as characters. -/
def wsepChars : List Char := ['<', '<', 'W', 'S', 'E', 'P', '>', '>']

/-- Fuelled scanner of step 3: the substitution of every maximal run of two
or more spaces by the placeholder. -/
def markSepsF : Nat → List Char → List Char
  | 0, l => l
  | _ + 1, [] => []
  | fuel + 1, ' ' :: ' ' :: t => wsepChars ++ markSepsF fuel (t.dropWhile (· = ' '))
  | fuel + 1, a :: t => a :: markSepsF fuel t

/-- Step 3 with adequate fuel. -/
def mark_word_seps (l : List Char) : List Char := markSepsF l.length l

/-- ASCII alphanumeric (the regex class [A-Za-z0-9]). -/
def isAsciiAlnum (c : Char) : Bool := isAsciiLetter c || c.isDigit

/-- Greedy continuation of a spaced-letter match: consume further pairs of a
space and a single alphanumeric; returns the collected alphanumerics
(starting with the one already matched) and the unconsumed remainder. -/
def munchSpaced (b : Char) : List Char → List Char × List Char
  | ' ' :: c :: t =>
    if isAsciiAlnum c then (b :: (munchSpaced c t).1, (munchSpaced c t).2)
    else ([b], ' ' :: c :: t)
  | t => ([b], t)

/-- Fuelled scanner of step 4: the substitution merging spaced single
alphanumerics: each match of an alphanumeric followed by one or more
space-alphanumeric pairs loses its internal spaces; scanning otherwise
advances one character. -/
def mergeSpacedF : Nat → List Char → List Char
  | 0, l => l
  | _ + 1, [] => []
  | fuel + 1, a :: ' ' :: b :: t =>
    if isAsciiAlnum a ∧ isAsciiAlnum b then
      a :: ((munchSpaced b t).1 ++ mergeSpacedF fuel (munchSpaced b t).2)
    else a :: mergeSpacedF fuel (' ' :: b :: t)
  | fuel + 1, a :: t => a :: mergeSpacedF fuel t

/-- Step 4 with adequate fuel. -/
def merge_spaced_letters (l : List Char) : List Char := mergeSpacedF l.length l

/-- Step 5: restoring each placeholder occurrence to a single space. -/
def restore_word_seps : List Char → List Char
  | '<' :: '<' :: 'W' :: 'S' :: 'E' :: 'P' :: '>' :: '>' :: t => ' ' :: restore_word_seps t
  | a :: t => a :: restore_word_seps t
  | [] => []

/-- The punctuation class of the space-before-punctuation regex. -/
def isPunctCls (c : Char) : Bool :=
  c = '.' || c = ',' || c = ':' || c = ';' || c = '?' || c = '!' || c = '%'

/-- Fuelled scanner of step 6: the substitution deleting any whitespace run
immediately followed by a punctuation character of the class (the
punctuation is kept). -/
def dropSpacePunctF : Nat → List Char → List Char
  | 0, l => l
  | _ + 1, [] => []
  | fuel + 1, a :: t =>
    if pyIsSpace a then
      match t.dropWhile pyIsSpace with
      | p :: r =>
        if isPunctCls p then p :: dropSpacePunctF fuel r
        else (a :: t.takeWhile pyIsSpace) ++ dropSpacePunctF fuel (t.dropWhile pyIsSpace)
      | [] => a :: t.takeWhile pyIsSpace
    else a :: dropSpacePunctF fuel t

/-- Step 6 with adequate fuel. -/
def drop_space_before_punct (l : List Char) : List Char := dropSpacePunctF l.length l

/-- The line-boundary characters of Python str.splitlines. -/
def pyLineBreakCodes : List Nat :=
  [0x0A, 0x0B, 0x0C, 0x0D, 0x1C, 0x1D, 0x1E, 0x85, 0x2028, 0x2029]

/-- Whether a character is a Python line boundary. -/
def pyIsLineBreak (c : Char) : Bool := pyLineBreakCodes.contains c.toNat

/-- Fuelled Python str.splitlines on a character list: each boundary
character ends a line (with \r\n counting as one boundary), a trailing
boundary produces no extra empty line, and the empty string has no lines. -/
def splitLinesF : Nat → List Char → List (List Char)
  | 0, _ => []
  | _ + 1, [] => []
  | fuel + 1, l =>
    match l.drop ((l.takeWhile fun c => !pyIsLineBreak c).length) with
    | [] => [l.takeWhile fun c => !pyIsLineBreak c]
    | b :: r =>
      (l.takeWhile fun c => !pyIsLineBreak c) ::
        splitLinesF fuel (if b = '\r' ∧ r.head? = some '\n' then r.tail else r)

/-- Python str.splitlines with adequate fuel. -/
def splitLinesChars (l : List Char) : List (List Char) := splitLinesF l.length l

/-- Python '\n'.join on character lists. -/
def joinNl : List (List Char) → List Char
  | [] => []
  | [x] => x
  | x :: xs => x ++ '\n' :: joinNl xs

/-- Step 7: strip every line, join with single newlines, and strip the
whole text. -/
def strip_lines (l : List Char) : List Char :=
  stripChars (joinNl ((splitLinesChars l).map stripChars))

/-- Steps 2 to 7 of clean_text as one function. -/
def clean_rest (l : List Char) : List Char :=
  strip_lines (drop_space_before_punct (restore_word_seps
    (merge_spaced_letters (mark_word_seps (collapse_newlines l)))))

/-- `clean_text` (src/src/scraping/utils.py): empty input is returned
unchanged; otherwise the seven normalisation steps run in order. -/
def clean_text (s : String) : String :=
  if s = "" then s
  else String.mk (clean_rest (clean_basic_ws s.data))

/-- The input on which clean_text fails to be idempotent: a doubled space
between two single-letter words. -/
def cxStr : String := "a  b"

/-- Concrete input for the amended C5 witness: already normalised text. -/
def wClean : String := "hello."

/-- C10: with an empty metric-keyword map the prefilter rejects every text,
whatever the threshold and the fuzzy scorer. -/
theorem C10_empty_map_never_relevant (minScore : ℚ)
    (fuzzScore : String → String → ℚ) (text : String) :
    preprocess_sync [] minScore fuzzScore text = false := rfl

/-- C8: the prefilter is monotonic in the keyword lists: if it accepts a text
with some metric-keyword map, it still accepts it after inserting one more
keyword `k` at any position `i` of any metric's list. -/
theorem C8_keyword_monotone (A B : List (String × List String)) (m : String)
    (kws : List String) (i : Nat) (k : String) (minScore : ℚ)
    (fuzzScore : String → String → ℚ) (text : String)
    (h : preprocess_sync (A ++ (m, kws) :: B) minScore fuzzScore text = true) :
    preprocess_sync (A ++ (m, kws.take i ++ k :: kws.drop i) :: B) minScore
      fuzzScore text = true := by
  simp only [preprocess_sync, List.any_eq_true] at h ⊢
  obtain ⟨p, hp, kw, hkw, hmatch⟩ := h
  rcases List.mem_append.mp hp with hpA | hpB
  · exact ⟨p, List.mem_append.mpr (Or.inl hpA), kw, hkw, hmatch⟩
  · rcases List.mem_cons.mp hpB with hpm | hpB
    · refine ⟨(m, kws.take i ++ k :: kws.drop i),
        List.mem_append.mpr (Or.inr (List.mem_cons_self _ _)), kw, ?_, ?_⟩
      · have hkw' : kw ∈ kws := by rw [hpm] at hkw; exact hkw
        have : kw ∈ kws.take i ++ kws.drop i := by
          rw [List.take_append_drop]; exact hkw'
        rcases List.mem_append.mp this with h1 | h2
        · exact List.mem_append.mpr (Or.inl h1)
        · exact List.mem_append.mpr (Or.inr (List.mem_cons_of_mem _ h2))
      · exact hmatch
    · exact ⟨p, List.mem_append.mpr (Or.inr (List.mem_cons_of_mem _ hpB)), kw, hkw, hmatch⟩

/-- Witness for C8: the hypothesis holds at a concrete map and text, and the
conclusion follows by the theorem. -/
theorem C8_keyword_monotone_witness :
    preprocess_sync ([] ++ (wMetric, wKws) :: []) 0 (fun _ _ => 0) wText = true ∧
    preprocess_sync ([] ++ (wMetric, wKws.take 0 ++ (r"war") :: wKws.drop 0) :: []) 0
      (fun _ _ => 0) wText = true :=
  ⟨by decide, C8_keyword_monotone [] [] wMetric wKws 0 (r"war") 0 (fun _ _ => 0) wText (by decide)⟩

/-- A character code point of the form n + 32 with n at most 90 is a valid
scalar value, so Char.ofNat round-trips on it. -/
theorem toNat_ofNat_valid (n : Nat) (h : n.isValidChar) : (Char.ofNat n).toNat = n := by
  simp [Char.ofNat, dif_pos h, Char.ofNatAux, Char.toNat, UInt32.toNat, BitVec.toNat_ofNatLt]

/-- Char.toLower is idempotent: lowering an already-lowered character is the
identity. -/
theorem charToLower_fix (c : Char) : (Char.toLower c).toLower = Char.toLower c := by
  have h1 : ∀ d : Char, ¬(d.toNat ≥ 65 ∧ d.toNat ≤ 90) → d.toLower = d := by
    intro d hd
    simp only [Char.toLower]
    rw [if_neg hd]
  by_cases hc : c.toNat ≥ 65 ∧ c.toNat ≤ 90
  · have hlow : (Char.toLower c).toNat = c.toNat + 32 := by
      simp only [Char.toLower]
      rw [if_pos hc]
      exact toNat_ofNat_valid _ (Or.inl (by omega))
    exact h1 _ (by omega)
  · have h2 := h1 c hc
    rw [h2]
    exact h2

/-- pyLower is idempotent. -/
theorem pyLower_idem (s : String) : pyLower (pyLower s) = pyLower s := by
  simp only [pyLower, List.map_map]
  congr 1
  exact List.map_congr_left fun c _ => charToLower_fix c

/-- pyLower of any string is a fixed point of pyLower. -/
theorem pyLower_fix_of_eq (s t : String) (h : s = pyLower t) : pyLower s = s := by
  rw [h]; exact pyLower_idem t

/-- Every fact produced by format_entry has its metric in the allow-list, a
non-empty country, a non-empty validated dates list, and a metric that is a
fixed point of lower-casing. -/
theorem format_entry_ok_some (A : List String) (e : PyVal) (f : ExtractedFact)
    (h : format_entry A e = .ok (some f)) :
    f.metric ∈ A ∧ f.country ≠ "" ∧ f.dates ≠ [] ∧ pyLower f.metric = f.metric := by
  cases e
  case pyDict d =>
    simp only [format_entry] at h
    split at h
    · rename_i hmem
      split at h
      · simp at h
      · rename_i ds hds
        split at h
        · rename_i hguard
          simp only [Except.ok.injEq, Option.some.injEq] at h
          obtain ⟨hc, hm, hd⟩ := hguard
          subst h
          refine ⟨hmem, hc, hd, ?_⟩
          exact pyLower_fix_of_eq _ _ rfl
        · simp at h
    · simp at h
  all_goals simp [format_entry] at h

/-- Every fact in an ok result of the validation loop satisfies the
format_entry invariant. -/
theorem format_entries_ok (A : List String) (es : List PyVal) (fs : List ExtractedFact)
    (h : format_entries A es = .ok fs) :
    ∀ f ∈ fs, f.metric ∈ A ∧ f.country ≠ "" ∧ f.dates ≠ [] ∧ pyLower f.metric = f.metric := by
  induction es generalizing fs with
  | nil =>
    simp only [format_entries, Except.ok.injEq] at h
    subst h
    simp
  | cons e rest ih =>
    simp only [format_entries] at h
    split at h
    · simp at h
    · rename_i hskip
      exact ih fs h
    · rename_i f' hf'
      split at h
      · simp at h
      · rename_i fs' hfs'
        simp only [Except.ok.injEq] at h
        subst h
        intro f hf
        rcases List.mem_cons.mp hf with rfl | hf
        · exact format_entry_ok_some A e f hf'
        · exact ih fs' hfs' f hf

/-- Master lemma for format_response: when the result is a fact list, the
list is non-empty and every fact satisfies the validation invariant. -/
theorem format_response_ok_some (parse : String → Option PyVal) (A : List String)
    (response : String) (facts : List ExtractedFact)
    (h : format_response parse A response = .ok (some facts)) :
    facts ≠ [] ∧ ∀ f ∈ facts,
      f.metric ∈ A ∧ f.country ≠ "" ∧ f.dates ≠ [] ∧ pyLower f.metric = f.metric := by
  unfold format_response at h
  split at h
  · simp at h
  · split at h
    · simp at h
    · split at h
      · simp at h
      · rename_i entries hentries
        split at h
        · simp at h
        · simp at h
        · rename_i fs hne hfs
          simp only [Except.ok.injEq, Option.some.injEq] at h
          subst h
          exact ⟨by simpa using hne, format_entries_ok A entries fs hfs⟩
      · simp at h

/-- C1: every returned fact of format_response has a metric in the configured
allow-list (matched case-insensitively via the lower-cased stored list), a
non-empty country and a non-empty dates list; offending elements are dropped
during the loop, and an empty surviving list comes back as none rather than
as an empty list. -/
theorem C1_format_response_invariant (parse : String → Option PyVal)
    (allowedMetrics : List String) (response : String) (facts : List ExtractedFact)
    (h : format_response parse (configure_allowed allowedMetrics) response =
      .ok (some facts)) :
    facts ≠ [] ∧ ∀ f ∈ facts,
      f.metric ∈ configure_allowed allowedMetrics ∧ f.country ≠ "" ∧ f.dates ≠ [] := by
  obtain ⟨hne, hall⟩ := format_response_ok_some parse (configure_allowed allowedMetrics)
    response facts h
  exact ⟨hne, fun f hf => ⟨(hall f hf).1, (hall f hf).2.1, (hall f hf).2.2.1⟩⟩

/-- C9: every fact returned by format_response carries a metric that is a
fixed point of lower-casing (it was produced as the trimmed, lower-cased form
of the model's metric field). -/
theorem C9_metric_is_lower_cased (parse : String → Option PyVal)
    (allowedMetrics : List String) (response : String) (facts : List ExtractedFact)
    (h : format_response parse allowedMetrics response = .ok (some facts)) :
    ∀ f ∈ facts, pyLower f.metric = f.metric :=
  fun f hf => ((format_response_ok_some parse allowedMetrics response facts h).2 f hf).2.2.2

/-- Witness for C1 at a concrete parse, allow-list and response. -/
theorem C1_format_response_invariant_witness :
    ([wFact] : List ExtractedFact) ≠ [] ∧ ∀ f ∈ [wFact],
      f.metric ∈ configure_allowed wAllowed ∧ f.country ≠ "" ∧ f.dates ≠ [] :=
  C1_format_response_invariant goodParse wAllowed wResp [wFact] (by rfl)

/-- Witness for C9 at a concrete parse, allow-list and response. -/
theorem C9_metric_is_lower_cased_witness :
    pyLower wFact.metric = wFact.metric :=
  C9_metric_is_lower_cased goodParse (configure_allowed wAllowed) wResp [wFact] (by rfl)
    wFact (List.mem_cons_self _ _)

/-- C2 counterexample: the date regex `^\d{2}-\d{4}$` only checks that the
month part is two ASCII digits, so "13-2021" passes validation and appears in
a returned fact's dates list, contradicting the claim that it is rejected. -/
theorem C2_counterexample :
    matchesDateRe (r"13-2021") = true ∧
    format_response thirteenParse (configure_allowed [(r"disaster")]) wResp =
      .ok (some [⟨(r"Kenya"), (r"disaster"), [(r"13-2021")]⟩]) :=
  ⟨rfl, rfl⟩

/-- C2 amended: the validation accepts exactly two digits, a dash and four
digits: "03-2021" and "13-2021" are accepted (no month-range check), while
"2021-03" and "March 2021" are rejected. -/
theorem C2_amended_dates :
    matchesDateRe (r"03-2021") = true ∧ matchesDateRe (r"13-2021") = true ∧
    matchesDateRe (r"2021-03") = false ∧ matchesDateRe (r"March 2021") = false := by
  decide

/-- C4 counterexample: the response "canoe" does not begin with "no" (after
lower-casing and stripping), yet format_response rejects it, because the
check tests substring containment of "no" in the first ten characters; the
same parse on the response "kayak" yields a fact, showing the rejection comes
from the negative-result step and not from parsing. -/
theorem C4_counterexample :
    format_response goodParse (configure_allowed wAllowed) (r"canoe") = .ok none ∧
    ((['n', 'o']).isPrefixOf (pyStrip (pyLower (r"canoe"))).data = false) ∧
    format_response goodParse (configure_allowed wAllowed) (r"kayak") =
      .ok (some [wFact]) :=
  ⟨rfl, rfl, rfl⟩

/-- C4 amended: format_response returns none whenever the substring "no"
occurs within the first min(10, length) characters of the lower-cased,
stripped response — a strictly weaker trigger than "begins with no" (which it
subsumes). -/
theorem C4_amended_no_containment (parse : String → Option PyVal)
    (allowedMetrics : List String) (response : String)
    (h : no_check response = true) :
    format_response parse allowedMetrics response = .ok none := by
  unfold format_response
  rcases eq_or_ne response "" with he | he
  · rw [if_pos he]
  · rw [if_neg he, if_pos h]

/-- Witness for the amended C4 at a concrete rejected response. -/
theorem C4_amended_no_containment_witness :
    no_check (r"canoe trip") = true ∧
    format_response goodParse (configure_allowed wAllowed) (r"canoe trip") = .ok none :=
  ⟨by decide,
   C4_amended_no_containment goodParse (configure_allowed wAllowed) (r"canoe trip") (by decide)⟩

/-- C3 counterexample: when navigation fails with a timeout, resolve_final_url
returns the page's current URL (here about:blank), not the original input
URL, contradicting the claim that any navigation failure yields the original
URL. -/
theorem C3_counterexample :
    resolve_final_url cexPage cexUrl = .ok (r"about:blank") ∧
    (r"about:blank") ≠ cexUrl :=
  ⟨rfl, by decide⟩

/-- C3 amended: resolve_final_url never lets an exception of the handled
classes escape (it always returns some URL); a navigation failure other than
an asyncio timeout yields the original input URL, while an asyncio timeout
yields the page's current URL (or the original URL when the google guard
short-circuits before any navigation). -/
theorem C3_amended_fallbacks (page : RedirectPage) (url : String) :
    (∃ s, resolve_final_url page url = .ok s) ∧
    ((resolve_body page = .error .otherError ∨
      resolve_body page = .error .playwrightTimeout) →
      resolve_final_url page url = .ok url) ∧
    (resolve_body page = .error .asyncioTimeout →
      resolve_final_url page url = .ok url ∨
      resolve_final_url page url = .ok page.urlAtTimeout) := by
  unfold resolve_final_url
  by_cases hg : (url = "" || !(strContains url (r"google"))) = true
  · rw [if_pos hg]
    exact ⟨⟨url, rfl⟩, fun _ => rfl, fun _ => Or.inl rfl⟩
  · rw [if_neg hg]
    refine ⟨?_, ?_, ?_⟩
    · cases hb : resolve_body page with
      | ok u => exact ⟨u, rfl⟩
      | error e =>
        cases e
        · exact ⟨page.urlAtTimeout, rfl⟩
        · exact ⟨url, rfl⟩
        · exact ⟨url, rfl⟩
    · intro hbe
      rcases hbe with hb | hb <;> rw [hb]
    · intro hb
      rw [hb]
      exact Or.inr rfl

/-- Witness for the amended C3 at a concrete page and URL (discharging the
inner error-case implications at the timing-out page). -/
theorem C3_amended_fallbacks_witness :
    (∃ s, resolve_final_url cexPage cexUrl = .ok s) ∧
    ((resolve_body cexPage = .error .otherError ∨
      resolve_body cexPage = .error .playwrightTimeout) →
      resolve_final_url cexPage cexUrl = .ok cexUrl) ∧
    (resolve_body cexPage = .error .asyncioTimeout →
      resolve_final_url cexPage cexUrl = .ok cexUrl ∨
      resolve_final_url cexPage cexUrl = .ok cexPage.urlAtTimeout) :=
  C3_amended_fallbacks cexPage cexUrl

/-- C6: a non-None result of get_page_text always has at least the configured
minimum length. -/
theorem C6_min_text_length (cfg : BrowserCfg) (contextId : Int) (env : PageEnv)
    (s : String) (h : get_page_text cfg contextId env = .ok (some s)) :
    cfg.min_text_length ≤ s.length := by
  unfold get_page_text at h
  split at h
  · simp at h
  · split at h
    · simp at h
    · split at h
      · simp at h
      · rename_i hlen
        simp only [Except.ok.injEq, Option.some.injEq] at h
        subst h
        exact Nat.le_of_not_lt hlen

/-- Witness for C6 at the concrete configuration and environment. -/
theorem C6_min_text_length_witness :
    wCfg.min_text_length ≤ (page_text_of wCfg wEnv).length :=
  C6_min_text_length wCfg 0 wEnv (page_text_of wCfg wEnv) (by rfl)

/-- The visited set after one task's loop contains exactly the previously
visited urls and the urls of its hits. -/
theorem fetch_single_loop_visited (q : QueryIn) (hits : List SearchHit)
    (visited : List (Option String)) (u : Option String) :
    u ∈ (fetch_single_loop q hits visited).2 ↔
      u ∈ visited ∨ ∃ a ∈ hits, raw_url a = u := by
  induction hits generalizing visited with
  | nil => simp [fetch_single_loop]
  | cons a rest ih =>
    simp only [fetch_single_loop]
    split
    · rename_i hmem
      rw [ih]
      simp only [List.mem_cons]
      constructor
      · rintro (h | ⟨x, hx, hxu⟩)
        · exact Or.inl h
        · exact Or.inr ⟨x, Or.inr hx, hxu⟩
      · rintro (h | ⟨x, hx | hx, hxu⟩)
        · exact Or.inl h
        · subst hx; exact Or.inl (hxu ▸ hmem)
        · exact Or.inr ⟨x, hx, hxu⟩
    · rename_i hmem
      rw [ih]
      simp only [List.mem_cons]
      constructor
      · rintro ((h | h) | ⟨x, hx, hxu⟩)
        · exact Or.inr ⟨a, Or.inl rfl, h.symm⟩
        · exact Or.inl h
        · exact Or.inr ⟨x, Or.inr hx, hxu⟩
      · rintro (h | ⟨x, hx | hx, hxu⟩)
        · exact Or.inl (Or.inr h)
        · subst hx; exact Or.inl (Or.inl hxu.symm)
        · exact Or.inr ⟨x, hx, hxu⟩

/-- The number of articles one task emits for a given url: one when some hit
carries it and it was not yet visited, zero otherwise. -/
theorem fetch_single_loop_count (q : QueryIn) (hits : List SearchHit)
    (visited : List (Option String)) (u : Option String) :
    ((fetch_single_loop q hits visited).1.countP fun o => o.url == u) =
      if (∃ a ∈ hits, raw_url a = u) ∧ u ∉ visited then 1 else 0 := by
  induction hits generalizing visited with
  | nil => simp [fetch_single_loop]
  | cons a rest ih =>
    simp only [fetch_single_loop]
    by_cases hmem : raw_url a ∈ visited
    · rw [if_pos hmem, ih]
      refine if_congr ?_ rfl rfl
      constructor
      · rintro ⟨⟨x, hx, hxu⟩, hnv⟩
        exact ⟨⟨x, List.mem_cons_of_mem _ hx, hxu⟩, hnv⟩
      · rintro ⟨⟨x, hx, hxu⟩, hnv⟩
        rcases List.mem_cons.mp hx with rfl | hx
        · exact absurd (hxu ▸ hmem) hnv
        · exact ⟨⟨x, hx, hxu⟩, hnv⟩
    · rw [if_neg hmem]
      rw [List.countP_cons, ih]
      by_cases hu : raw_url a = u
      · subst hu
        have h1 : ¬((∃ x ∈ rest, raw_url x = raw_url a) ∧ raw_url a ∉ raw_url a :: visited) :=
          fun hc => hc.2 (List.mem_cons_self _ _)
        have h2 : (∃ x ∈ a :: rest, raw_url x = raw_url a) ∧ raw_url a ∉ visited :=
          ⟨⟨a, List.mem_cons_self a rest, rfl⟩, hmem⟩
        rw [if_neg h1, if_pos h2]
        simp
      · have hne : ((⟨raw_url a, q.country, q.searchText⟩ : ArticleOut).url == u) = false := by
          simp [hu]
        rw [hne]
        simp only [Bool.false_eq_true, if_false, Nat.add_zero]
        refine if_congr ?_ rfl rfl
        constructor
        · rintro ⟨⟨x, hx, hxu⟩, hnv⟩
          exact ⟨⟨x, List.mem_cons_of_mem _ hx, hxu⟩,
            fun hc => hnv (List.mem_cons_of_mem _ hc)⟩
        · rintro ⟨⟨x, hx, hxu⟩, hnv⟩
          rcases List.mem_cons.mp hx with rfl | hx
          · exact absurd hxu hu
          · refine ⟨⟨x, hx, hxu⟩, fun hc => ?_⟩
            rcases List.mem_cons.mp hc with rfl | hc
            · exact hu rfl
            · exact hnv hc

/-- The shared visited set only grows across the gathered tasks. -/
theorem run_fetch_tasks_visited_mono (tasks : List (QueryIn × List SearchHit))
    (visited : List (Option String)) (u : Option String) (h : u ∈ visited) :
    u ∈ (run_fetch_tasks tasks visited).2 := by
  induction tasks generalizing visited with
  | nil => exact h
  | cons t rest ih =>
    obtain ⟨q, hits⟩ := t
    simp only [run_fetch_tasks]
    exact ih _ ((fetch_single_loop_visited q hits visited u).mpr (Or.inl h))

/-- A url already in the shared visited set is never emitted again by any
later task. -/
theorem run_fetch_tasks_count_zero (tasks : List (QueryIn × List SearchHit))
    (visited : List (Option String)) (u : Option String) (h : u ∈ visited) :
    ((run_fetch_tasks tasks visited).1.countP fun o => o.url == u) = 0 := by
  induction tasks generalizing visited with
  | nil => simp [run_fetch_tasks]
  | cons t rest ih =>
    obtain ⟨q, hits⟩ := t
    simp only [run_fetch_tasks, List.countP_append]
    rw [fetch_single_loop_count, if_neg (fun hc => hc.2 h)]
    rw [ih _ ((fetch_single_loop_visited q hits visited u).mpr (Or.inl h))]

/-- C7: across any collection of concurrently gathered fetch tasks (in any
completion order) whose hits offer the url `u`, with `u` not previously
visited, exactly one article with url `u` is emitted — never zero and never
two — because the membership test and insertion of the shared visited set
run atomically within a task's loop. -/
theorem C7_visited_dedup_exactly_once (tasks : List (QueryIn × List SearchHit))
    (visited : List (Option String)) (u : Option String)
    (hnew : u ∉ visited)
    (hoffered : ∃ t ∈ tasks, ∃ a ∈ t.2, raw_url a = u) :
    ((run_fetch_tasks tasks visited).1.countP fun o => o.url == u) = 1 := by
  induction tasks generalizing visited with
  | nil => simp at hoffered
  | cons t rest ih =>
    obtain ⟨q, hits⟩ := t
    simp only [run_fetch_tasks, List.countP_append]
    rw [fetch_single_loop_count]
    by_cases h1 : ∃ a ∈ hits, raw_url a = u
    · rw [if_pos ⟨h1, hnew⟩]
      have hv : u ∈ (fetch_single_loop q hits visited).2 :=
        (fetch_single_loop_visited q hits visited u).mpr (Or.inr h1)
      rw [run_fetch_tasks_count_zero rest _ u hv]
    · rw [if_neg (fun hc => h1 hc.1), Nat.zero_add]
      have hnew' : u ∉ (fetch_single_loop q hits visited).2 := by
        rw [fetch_single_loop_visited]
        rintro (h | h)
        · exact hnew h
        · exact h1 h
      have hoff' : ∃ t' ∈ rest, ∃ a ∈ t'.2, raw_url a = u := by
        rcases hoffered with ⟨t', ht', ha⟩
        rcases List.mem_cons.mp ht' with rfl | ht'
        · exact absurd ha h1
        · exact ⟨t', ht', ha⟩
      exact ih _ hnew' hoff'

/-- Witness for C7: two tasks race on one url starting from an empty visited
set, and exactly one article is emitted. -/
theorem C7_visited_dedup_exactly_once_witness :
    ((run_fetch_tasks wTasks []).1.countP fun o => o.url == wUrl) = 1 :=
  C7_visited_dedup_exactly_once wTasks [] wUrl (by decide) (by decide)

/-- C5 counterexample: clean_text is not idempotent.  One pass turns the
doubled space of "a  b" into a protected single-space word separator, but a
second pass merges that single space away: clean(clean "a  b") = "ab" differs
from clean "a  b" = "a b". -/
theorem C5_counterexample :
    clean_text cxStr = String.mk ['a', ' ', 'b'] ∧
    clean_text (clean_text cxStr) = String.mk ['a', 'b'] ∧
    clean_text (clean_text cxStr) ≠ clean_text cxStr := by
  refine ⟨by decide, by decide, by decide⟩

/-- Membership in a replace_char result: each output character is the
replacement or an input character different from the pattern. -/
theorem mem_replace_char (x y c : Char) (l : List Char) (h : c ∈ replace_char x y l) :
    c = y ∨ (c ∈ l ∧ c ≠ x) := by
  simp only [replace_char, List.mem_map] at h
  obtain ⟨a, ha, hc⟩ := h
  by_cases hax : a = x
  · subst hax
    rw [if_pos rfl] at hc
    exact Or.inl hc.symm
  · rw [if_neg hax] at hc
    subst hc
    exact Or.inr ⟨ha, hax⟩

/-- replace_char is the identity when the pattern character is absent. -/
theorem replace_char_id (x y : Char) (l : List Char) (h : x ∉ l) :
    replace_char x y l = l := by
  induction l with
  | nil => rfl
  | cons a t ih =>
    simp only [replace_char, List.map_cons] at ih ⊢
    rw [if_neg (fun he => h (by rw [← he]; exact List.mem_cons_self a t))]
    rw [ih (fun hx => h (List.mem_cons_of_mem a hx))]

/-- replaceCrlfF is the identity when no carriage return is present
(whatever the fuel). -/
theorem replaceCrlfF_id (fuel : Nat) : ∀ l : List Char, '\r' ∉ l → replaceCrlfF fuel l = l := by
  induction fuel with
  | zero => intro l _; rfl
  | succ fuel ih =>
    intro l hl
    match l with
    | [] => rfl
    | a :: t =>
      have ha : a ≠ '\r' := fun he => hl (by rw [← he]; exact List.mem_cons_self a t)
      have ht : '\r' ∉ t := fun hx => hl (List.mem_cons_of_mem a hx)
      calc replaceCrlfF (fuel + 1) (a :: t) = a :: replaceCrlfF fuel t := by
            simp only [replaceCrlfF]
            rw [if_neg ha]
        _ = a :: t := by rw [ih t ht]

/-- After step 1 the text contains no carriage return, tab or non-breaking
space. -/
theorem clean_basic_ws_no_bad (l : List Char) :
    ∀ c ∈ clean_basic_ws l, c ≠ '\r' ∧ c ≠ '\t' ∧ c ≠ ' ' := by
  intro c hc
  rcases mem_replace_char _ _ _ _ hc with rfl | ⟨hc2, hnb⟩
  · exact ⟨by decide, by decide, by decide⟩
  · rcases mem_replace_char _ _ _ _ hc2 with rfl | ⟨hc3, hnt⟩
    · exact ⟨by decide, by decide, hnb⟩
    · rcases mem_replace_char _ _ _ _ hc3 with rfl | ⟨_, hnr⟩
      · exact ⟨by decide, hnt, hnb⟩
      · exact ⟨hnr, hnt, hnb⟩

/-- Step 1 is the identity on texts without carriage returns, tabs and
non-breaking spaces. -/
theorem clean_basic_ws_id (l : List Char)
    (h : ∀ c ∈ l, c ≠ '\r' ∧ c ≠ '\t' ∧ c ≠ ' ') :
    clean_basic_ws l = l := by
  unfold clean_basic_ws
  rw [show replace_crlf l = l from replaceCrlfF_id l.length l (fun hr => ((h _ hr).1 rfl))]
  rw [replace_char_id _ _ _ (fun hr => ((h _ hr).1 rfl))]
  rw [replace_char_id _ _ _ (fun hr => ((h _ hr).2.1 rfl))]
  rw [replace_char_id _ _ _ (fun hr => ((h _ hr).2.2 rfl))]

/-- Each character of a collapseNlF result is an input character or a
newline. -/
theorem mem_collapseNlF (fuel : Nat) (l : List Char) :
    ∀ c ∈ collapseNlF fuel l, c ∈ l ∨ c = '\n' := by
  induction fuel, l using collapseNlF.induct with
  | case1 l => exact fun c h => Or.inl h
  | case2 fuel => exact fun c h => Or.inl h
  | case3 fuel t i heq ih =>
    intro c h
    have hred : collapseNlF (fuel + 1) ('\n' :: t) =
        '\n' :: '\n' :: collapseNlF fuel (t.drop (i + 1)) := by
      simp only [collapseNlF]
      rw [if_pos trivial, heq]
    rw [hred] at h
    rcases List.mem_cons.mp h with rfl | h
    · exact Or.inr rfl
    rcases List.mem_cons.mp h with rfl | h
    · exact Or.inr rfl
    rcases ih c h with hm | hm
    · exact Or.inl (List.mem_cons_of_mem _ (List.mem_of_mem_drop hm))
    · exact Or.inr hm
  | case4 fuel t heq ih =>
    intro c h
    have hred : collapseNlF (fuel + 1) ('\n' :: t) = '\n' :: collapseNlF fuel t := by
      simp only [collapseNlF]
      rw [if_pos trivial, heq]
    rw [hred] at h
    rcases List.mem_cons.mp h with rfl | h
    · exact Or.inl (List.mem_cons_self _ _)
    rcases ih c h with hm | hm
    · exact Or.inl (List.mem_cons_of_mem _ hm)
    · exact Or.inr hm
  | case5 fuel a t ha ih =>
    intro c h
    have hred : collapseNlF (fuel + 1) (a :: t) = a :: collapseNlF fuel t := by
      simp only [collapseNlF]
      rw [if_neg ha]
    rw [hred] at h
    rcases List.mem_cons.mp h with rfl | h
    · exact Or.inl (List.mem_cons_self _ _)
    rcases ih c h with hm | hm
    · exact Or.inl (List.mem_cons_of_mem _ hm)
    · exact Or.inr hm

/-- Each character of a markSepsF result is an input character or a
placeholder character. -/
theorem mem_markSepsF (fuel : Nat) (l : List Char) :
    ∀ c ∈ markSepsF fuel l, c ∈ l ∨ c ∈ wsepChars := by
  induction fuel, l using markSepsF.induct with
  | case1 l => exact fun c h => Or.inl h
  | case2 fuel => exact fun c h => Or.inl h
  | case3 fuel t ih =>
    intro c h
    rw [markSepsF.eq_3] at h
    rcases List.mem_append.mp h with hw | hr
    · exact Or.inr hw
    rcases ih c hr with hm | hm
    · exact Or.inl (List.mem_cons_of_mem _ (List.mem_cons_of_mem _
        ((List.dropWhile_sublist _).subset hm)))
    · exact Or.inr hm
  | case4 fuel a t hside ih =>
    intro c h
    rw [markSepsF.eq_4 fuel a t hside] at h
    rcases List.mem_cons.mp h with rfl | h
    · exact Or.inl (List.mem_cons_self _ _)
    rcases ih c h with hm | hm
    · exact Or.inl (List.mem_cons_of_mem _ hm)
    · exact Or.inr hm

/-- The characters collected by munchSpaced come from the first argument or
the input. -/
theorem mem_munchSpaced_fst (b : Char) (l : List Char) :
    ∀ c ∈ (munchSpaced b l).1, c = b ∨ c ∈ l := by
  induction b, l using munchSpaced.induct with
  | case1 b d t hd ih =>
    intro c h
    rw [show munchSpaced b (' ' :: d :: t) = (b :: (munchSpaced d t).1, (munchSpaced d t).2)
      from by simp [munchSpaced, hd]] at h
    rcases List.mem_cons.mp h with rfl | h
    · exact Or.inl rfl
    rcases ih c h with rfl | hm
    · exact Or.inr (List.mem_cons_of_mem _ (List.mem_cons_self _ _))
    · exact Or.inr (List.mem_cons_of_mem _ (List.mem_cons_of_mem _ hm))
  | case2 b d t hd =>
    intro c h
    rw [show munchSpaced b (' ' :: d :: t) = ([b], ' ' :: d :: t)
      from by simp [munchSpaced, hd]] at h
    rcases List.mem_cons.mp h with rfl | h
    · exact Or.inl rfl
    · exact absurd h (List.not_mem_nil c)
  | case3 b t hshape =>
    intro c h
    rw [show munchSpaced b t = ([b], t) from by
      rw [munchSpaced.eq_2 b t hshape]] at h
    rcases List.mem_cons.mp h with rfl | h
    · exact Or.inl rfl
    · exact absurd h (List.not_mem_nil c)

/-- The remainder left by munchSpaced is a subset of the input. -/
theorem mem_munchSpaced_snd (b : Char) (l : List Char) :
    ∀ c ∈ (munchSpaced b l).2, c ∈ l := by
  induction b, l using munchSpaced.induct with
  | case1 b d t hd ih =>
    intro c h
    rw [show munchSpaced b (' ' :: d :: t) = (b :: (munchSpaced d t).1, (munchSpaced d t).2)
      from by simp [munchSpaced, hd]] at h
    exact List.mem_cons_of_mem _ (List.mem_cons_of_mem _ (ih c h))
  | case2 b d t hd =>
    intro c h
    rw [show munchSpaced b (' ' :: d :: t) = ([b], ' ' :: d :: t)
      from by simp [munchSpaced, hd]] at h
    exact h
  | case3 b t hshape =>
    intro c h
    rw [show munchSpaced b t = ([b], t) from by
      rw [munchSpaced.eq_2 b t hshape]] at h
    exact h

/-- Each character of a mergeSpacedF result is an input character. -/
theorem mem_mergeSpacedF (fuel : Nat) (l : List Char) :
    ∀ c ∈ mergeSpacedF fuel l, c ∈ l := by
  induction fuel, l using mergeSpacedF.induct with
  | case1 l => exact fun c h => h
  | case2 fuel => exact fun c h => h
  | case3 fuel a b t hab ih =>
    intro c h
    rw [show mergeSpacedF (fuel + 1) (a :: ' ' :: b :: t) =
        a :: ((munchSpaced b t).1 ++ mergeSpacedF fuel (munchSpaced b t).2) from by
      simp [mergeSpacedF, hab.1, hab.2]] at h
    rcases List.mem_cons.mp h with rfl | h
    · exact List.mem_cons_self _ _
    rcases List.mem_append.mp h with hm | hm
    · rcases mem_munchSpaced_fst b t c hm with rfl | hm2
      · exact List.mem_cons_of_mem _ (List.mem_cons_of_mem _ (List.mem_cons_self _ _))
      · exact List.mem_cons_of_mem _ (List.mem_cons_of_mem _ (List.mem_cons_of_mem _ hm2))
    · have := mem_munchSpaced_snd b t c (ih c hm)
      exact List.mem_cons_of_mem _ (List.mem_cons_of_mem _ (List.mem_cons_of_mem _ this))
  | case4 fuel a b t hab ih =>
    intro c h
    rw [show mergeSpacedF (fuel + 1) (a :: ' ' :: b :: t) =
        a :: mergeSpacedF fuel (' ' :: b :: t) from by
      simp only [mergeSpacedF]
      rw [if_neg hab]] at h
    rcases List.mem_cons.mp h with rfl | h
    · exact List.mem_cons_self _ _
    · exact List.mem_cons_of_mem _ (ih c h)
  | case5 fuel a t hside ih =>
    intro c h
    rw [show mergeSpacedF (fuel + 1) (a :: t) = a :: mergeSpacedF fuel t from by
      exact mergeSpacedF.eq_4 fuel a t hside] at h
    rcases List.mem_cons.mp h with rfl | h
    · exact List.mem_cons_self _ _
    · exact List.mem_cons_of_mem _ (ih c h)

/-- Each character of a dropSpacePunctF result is an input character. -/
theorem mem_dropSpacePunctF (fuel : Nat) (l : List Char) :
    ∀ c ∈ dropSpacePunctF fuel l, c ∈ l := by
  induction fuel, l using dropSpacePunctF.induct with
  | case1 l => exact fun c h => h
  | case2 fuel => exact fun c h => h
  | case3 fuel a t ha p r heq hp ih =>
    intro c h
    rw [show dropSpacePunctF (fuel + 1) (a :: t) = p :: dropSpacePunctF fuel r from by
      simp only [dropSpacePunctF]
      rw [if_pos ha, heq]
      exact if_pos hp] at h
    have hpr : ∀ d ∈ p :: r, d ∈ t := by
      intro d hd
      have : d ∈ t.dropWhile pyIsSpace := heq ▸ hd
      exact (List.dropWhile_sublist _).subset this
    rcases List.mem_cons.mp h with rfl | h
    · exact List.mem_cons_of_mem _ (hpr c (List.mem_cons_self _ _))
    · exact List.mem_cons_of_mem _ (hpr c (List.mem_cons_of_mem _ (ih c h)))
  | case4 fuel a t ha p r heq hp ih =>
    intro c h
    rw [show dropSpacePunctF (fuel + 1) (a :: t) =
        (a :: t.takeWhile pyIsSpace) ++ dropSpacePunctF fuel (p :: r) from by
      simp only [dropSpacePunctF]
      rw [if_pos ha, heq]
      exact if_neg hp] at h
    rcases List.mem_append.mp h with hm | hm
    · rcases List.mem_cons.mp hm with rfl | hm2
      · exact List.mem_cons_self _ _
      · exact List.mem_cons_of_mem _ ((List.takeWhile_sublist _).subset hm2)
    · rw [← heq] at hm
      exact List.mem_cons_of_mem _ ((List.dropWhile_sublist _).subset (ih c hm))
  | case5 fuel a t ha heq =>
    intro c h
    rw [show dropSpacePunctF (fuel + 1) (a :: t) = a :: t.takeWhile pyIsSpace from by
      simp only [dropSpacePunctF]
      rw [if_pos ha, heq]] at h
    rcases List.mem_cons.mp h with rfl | h
    · exact List.mem_cons_self _ _
    · exact List.mem_cons_of_mem _ ((List.takeWhile_sublist _).subset h)
  | case6 fuel a t ha ih =>
    intro c h
    rw [show dropSpacePunctF (fuel + 1) (a :: t) = a :: dropSpacePunctF fuel t from by
      simp only [dropSpacePunctF]
      rw [if_neg ha]] at h
    rcases List.mem_cons.mp h with rfl | h
    · exact List.mem_cons_self _ _
    · exact List.mem_cons_of_mem _ (ih c h)

/-- Each character of a stripped list is an input character. -/
theorem mem_stripChars (l : List Char) : ∀ c ∈ stripChars l, c ∈ l := by
  intro c h
  unfold stripChars at h
  rw [List.mem_reverse] at h
  have h2 := (List.dropWhile_sublist _).subset h
  rw [List.mem_reverse] at h2
  exact (List.dropWhile_sublist _).subset h2

/-- Each character of a joinNl result is a newline or a character of one of
the lines. -/
theorem mem_joinNl (ls : List (List Char)) :
    ∀ c ∈ joinNl ls, c = '\n' ∨ ∃ x ∈ ls, c ∈ x := by
  induction ls with
  | nil => intro c h; exact absurd h (List.not_mem_nil c)
  | cons x xs ih =>
    intro c h
    match xs with
    | [] =>
      exact Or.inr ⟨x, List.mem_cons_self _ _, h⟩
    | y :: ys =>
      rw [show joinNl (x :: y :: ys) = x ++ '\n' :: joinNl (y :: ys) from rfl] at h
      rcases List.mem_append.mp h with hm | hm
      · exact Or.inr ⟨x, List.mem_cons_self _ _, hm⟩
      rcases List.mem_cons.mp hm with rfl | hm
      · exact Or.inl rfl
      rcases ih c hm with hl | ⟨z, hz, hcz⟩
      · exact Or.inl hl
      · exact Or.inr ⟨z, List.mem_cons_of_mem _ hz, hcz⟩

/-- Each character of each line of a splitLinesF result is an input
character. -/
theorem mem_splitLinesF (fuel : Nat) (l : List Char) :
    ∀ x ∈ splitLinesF fuel l, ∀ c ∈ x, c ∈ l := by
  induction fuel, l using splitLinesF.induct with
  | case1 l => exact fun x hx => absurd hx (List.not_mem_nil x)
  | case2 fuel => exact fun x hx => absurd hx (List.not_mem_nil x)
  | case3 fuel l hl heq =>
    intro x hx c hc
    rw [show splitLinesF (fuel + 1) l = [l.takeWhile fun c => !pyIsLineBreak c] from by
      simp only [splitLinesF]
      rw [heq]] at hx
    rcases List.mem_cons.mp hx with rfl | hx
    · exact (List.takeWhile_sublist _).subset hc
    · exact absurd hx (List.not_mem_nil x)
  | case4 fuel l hl b r heq ih =>
    intro x hx c hc
    rw [show splitLinesF (fuel + 1) l =
        (l.takeWhile fun c => !pyIsLineBreak c) ::
          splitLinesF fuel (if b = '\r' ∧ r.head? = some '\n' then r.tail else r) from by
      simp only [splitLinesF]
      rw [heq]] at hx
    have hrsub : ∀ d ∈ (if b = '\r' ∧ r.head? = some '\n' then r.tail else r), d ∈ l := by
      intro d hd
      have hdr : d ∈ r := by
        split at hd
        · exact List.mem_of_mem_tail hd
        · exact hd
      have : d ∈ l.drop ((l.takeWhile fun c => !pyIsLineBreak c).length) := by
        rw [heq]
        exact List.mem_cons_of_mem _ hdr
      exact List.mem_of_mem_drop this
    rcases List.mem_cons.mp hx with rfl | hx
    · exact (List.takeWhile_sublist _).subset hc
    · exact hrsub c (ih x hx c hc)

/-- Each character of a restore_word_seps result is an input character or a
space. -/
theorem mem_restore_word_seps (l : List Char) :
    ∀ c ∈ restore_word_seps l, c ∈ l ∨ c = ' ' := by
  induction l using restore_word_seps.induct with
  | case1 t ih =>
    intro c h
    rw [show restore_word_seps ('<' :: '<' :: 'W' :: 'S' :: 'E' :: 'P' :: '>' :: '>' :: t) =
        ' ' :: restore_word_seps t from rfl] at h
    rcases List.mem_cons.mp h with rfl | h
    · exact Or.inr rfl
    rcases ih c h with hm | hm
    · refine Or.inl ?_
      iterate 8 refine List.mem_cons_of_mem _ ?_
      exact hm
    · exact Or.inr hm
  | case2 a t hside ih =>
    intro c h
    rw [restore_word_seps.eq_2 a t hside] at h
    rcases List.mem_cons.mp h with rfl | h
    · exact Or.inl (List.mem_cons_self _ _)
    rcases ih c h with hm | hm
    · exact Or.inl (List.mem_cons_of_mem _ hm)
    · exact Or.inr hm
  | case3 => exact fun c h => Or.inl h

/-- Each character produced by strip_lines is an input character or a
newline. -/
theorem mem_strip_lines (l : List Char) : ∀ c ∈ strip_lines l, c ∈ l ∨ c = '\n' := by
  intro c h
  unfold strip_lines at h
  have h2 := mem_stripChars _ c h
  rcases mem_joinNl _ c h2 with rfl | ⟨x, hx, hcx⟩
  · exact Or.inr rfl
  rcases List.mem_map.mp hx with ⟨y, hy, rfl⟩
  have hcy := mem_stripChars y c hcx
  exact Or.inl (mem_splitLinesF l.length l y hy c hcy)

/-- Characters produced by steps 2 to 7 are input characters, newlines,
spaces or placeholder characters. -/
theorem mem_clean_rest (l : List Char) :
    ∀ c ∈ clean_rest l, c ∈ l ∨ c = '\n' ∨ c = ' ' ∨ c ∈ wsepChars := by
  intro c h
  unfold clean_rest at h
  rcases mem_strip_lines _ c h with h6 | rfl
  · rcases mem_dropSpacePunctF _ _ c h6 |> mem_restore_word_seps _ c with h5 | rfl
    · rcases mem_mergeSpacedF _ _ c h5 |> mem_markSepsF _ _ c with h3 | hw
      · rcases mem_collapseNlF _ _ c h3 with h2 | rfl
        · exact Or.inl h2
        · exact Or.inr (Or.inl rfl)
      · exact Or.inr (Or.inr (Or.inr hw))
    · exact Or.inr (Or.inr (Or.inl rfl))
  · exact Or.inr (Or.inl rfl)

/-- Step 1 fixes every clean_text output: the pipeline removes carriage
returns, tabs and non-breaking spaces and never reintroduces them. -/
theorem clean_basic_ws_fixes_clean (x : String) :
    clean_basic_ws (clean_text x).data = (clean_text x).data := by
  by_cases hx : x = ""
  · rw [show clean_text x = "" from by rw [hx]; rfl]
    rfl
  · have hdata : (clean_text x).data = clean_rest (clean_basic_ws x.data) := by
      unfold clean_text
      rw [if_neg hx]
    rw [hdata]
    apply clean_basic_ws_id
    intro c hc
    rcases mem_clean_rest _ c hc with hm | rfl | rfl | hw
    · exact clean_basic_ws_no_bad x.data c hm
    · exact ⟨by decide, by decide, by decide⟩
    · exact ⟨by decide, by decide, by decide⟩
    · fin_cases hw <;> exact ⟨by decide, by decide, by decide⟩

/-- C5 amended: clean_text is not idempotent in general (see the
counterexample); it is idempotent at every input whose cleaned form is a
fixed point of each of the normalisation sub-steps 2 to 7 — the first step
(\r\n/\r/tab/non-breaking-space normalisation) provably fixes every
clean_text output, so no hypothesis is needed for it. -/
theorem C5_amended_conditional_idempotent (x : String)
    (h2 : collapse_newlines (clean_text x).data = (clean_text x).data)
    (h3 : mark_word_seps (clean_text x).data = (clean_text x).data)
    (h4 : merge_spaced_letters (clean_text x).data = (clean_text x).data)
    (h5 : restore_word_seps (clean_text x).data = (clean_text x).data)
    (h6 : drop_space_before_punct (clean_text x).data = (clean_text x).data)
    (h7 : strip_lines (clean_text x).data = (clean_text x).data) :
    clean_text (clean_text x) = clean_text x := by
  by_cases hy : clean_text x = ""
  · rw [hy]
    rfl
  · show (if clean_text x = "" then clean_text x
      else String.mk (clean_rest (clean_basic_ws (clean_text x).data))) = clean_text x
    rw [if_neg hy, clean_basic_ws_fixes_clean x]
    unfold clean_rest
    rw [h2, h3, h4, h5, h6, h7]

/-- Witness for the amended C5: the sub-step fixed-point hypotheses hold at
a concrete already-normalised input, and idempotence follows by the
theorem. -/
theorem C5_amended_conditional_idempotent_witness :
    collapse_newlines (clean_text wClean).data = (clean_text wClean).data ∧
    mark_word_seps (clean_text wClean).data = (clean_text wClean).data ∧
    merge_spaced_letters (clean_text wClean).data = (clean_text wClean).data ∧
    restore_word_seps (clean_text wClean).data = (clean_text wClean).data ∧
    drop_space_before_punct (clean_text wClean).data = (clean_text wClean).data ∧
    strip_lines (clean_text wClean).data = (clean_text wClean).data ∧
    clean_text (clean_text wClean) = clean_text wClean :=
  ⟨by decide, by decide, by decide, by decide, by decide, by decide,
   C5_amended_conditional_idempotent wClean (by decide) (by decide) (by decide)
     (by decide) (by decide) (by decide)⟩
